import Mathlib

set_option maxHeartbeats 1000000
set_option maxRecDepth 100000

namespace TPI

/-! # Shallow embedding of the TPI1 stock ledger transaction engine

Definitions are translated from `src/hooks/useAppActions.js` and
`src/components/modals/UseStockModal.jsx`.  Firestore documents are modelled
as Lean structures; ISO date strings are modelled as `Nat` timestamps
(order-isomorphic to `new Date(..)` values); Firestore transactions are
modelled as `Except`-returning functions on an explicit store state, so a
thrown error commits nothing.  The untyped `status` strings of the source are
kept as `String` fields, and fields that some documents lack are `Option`. -/

/-- The set of standard sheet lengths.  The constants file is not in `src/`;
the three lengths are evident from the `qty96`/`qty120`/`qty144` quantity
inputs of `UseStockModal.jsx` and the spec's "small fixed set of standard
lengths". -/
def STANDARD_LENGTHS : List Nat := [96, 120, 144]

/-- Modelled from the spec: `getGaugeFromMaterial` lives in the missing
`utils/dataProcessing.js`; the spec says only that `gauge` is "derived from
materialType", so it is modelled as an unspecified pure derivation (the
identity).  No claim depends on its output. -/
def getGaugeFromMaterial (materialType : String) : String := materialType

/-- One material-master entry (`materials[materialType]`): the fields the
engine reads. -/
structure MaterialInfo where
  density : Nat
  thickness : Nat
deriving DecidableEq

/-- The material master, keyed by material type. -/
abbrev Materials := List (String × MaterialInfo)

/-- One inventory unit ("sheet") document. -/
structure Sheet where
  id : Nat
  materialType : String
  gauge : String
  length : Nat
  width : Nat
  supplier : String
  costPerPound : Nat
  createdAt : Nat
  job : String
  status : String
  arrivalDate : Option Nat
  dateReceived : Option Nat
  density : Option Nat
  thickness : Option Nat
  usageLogId : Option Nat
  jobNameUsed : Option String
  customerUsed : Option String
  usedAt : Option Nat
deriving DecidableEq

/-- One row of a consumption record's `details` list.  The hook's immediate
path pushes full sheet snapshots (`snap`); the scheduled path pushes synthetic
descriptors with no unit identity (`syn`); the modal's submit path pushes a
sheet snapshot with the `id` stripped (`consumed`, from
`const { id, ...rest } = sheet`). -/
inductive LogDetail where
  | snap (s : Sheet)
  | syn (materialType : String) (length : Nat) (width : Nat) (gauge : String)
      (density : Nat) (thickness : Nat)
  | consumed (s : Sheet)
deriving DecidableEq

/-- The `d.id` read used by `handleEditOutgoingLog`; synthetic and
id-stripped rows have no id (JS `undefined`). -/
def LogDetail.detailId : LogDetail → Option Nat
  | .snap s => some s.id
  | .syn _ _ _ _ _ _ => none
  | .consumed _ => none

def LogDetail.detailMaterialType : LogDetail → String
  | .snap s => s.materialType
  | .syn mt _ _ _ _ _ => mt
  | .consumed s => s.materialType

def LogDetail.detailLength : LogDetail → Nat
  | .snap s => s.length
  | .syn _ len _ _ _ _ => len
  | .consumed s => s.length

/-- One consumption record ("usage log") document.  `status` is `Option`
because the modal's submit path writes records with no status field. -/
structure UsageLog where
  id : Nat
  job : String
  customer : String
  status : Option String
  createdAt : Nat
  usedAt : Nat
  fulfilledAt : Option Nat
  details : List LogDetail
  qty : Int
deriving DecidableEq

/-- The authoritative store: the inventory and usage-log collections, plus a
counter supplying the fresh document ids minted by `doc(collectionRef)`. -/
structure EngineState where
  inventory : List Sheet
  logs : List UsageLog
  nextId : Nat
deriving DecidableEq

/-- One item of an inbound job request: a material type and a requested
quantity per standard length (`item.qty96` …). -/
structure Item where
  materialType : String
  qty96 : Nat
  qty120 : Nat
  qty144 : Nat
  costPerPound : Nat
deriving DecidableEq

/-- The per-length quantity read, `parseInt` of the qty field or 0. -/
def qtyFor (it : Item) (len : Nat) : Nat :=
  if len = 96 then it.qty96
  else if len = 120 then it.qty120
  else if len = 144 then it.qty144
  else 0

/-- One inbound job descriptor. -/
structure Job where
  jobName : String
  customer : String
  items : List Item
  status : String
  supplier : String
  arrivalDate : Option Nat
deriving DecidableEq

/-- Whitespace test of the `.trim()` model. -/
def isSpaceChar (c : Char) : Bool :=
  c = ' ' || c = '\t' || c = '\n' || c = '\r'

/-- Executable model of JS `String.prototype.trim`: drop leading and trailing
whitespace. -/
def trimString (s : String) : String :=
  ⟨((s.data.dropWhile isSpaceChar).reverse.dropWhile isSpaceChar).reverse⟩

/-- Source expression `job.jobName.trim() || 'N/A'`. -/
def jobNameOrNA (s : String) : String :=
  if trimString s = "" then "N/A" else trimString s

/-- The revised request passed to `handleEditOutgoingLog`. -/
structure NewLogData where
  jobName : String
  customer : String
  date : Nat
  items : List Item
deriving DecidableEq

/-- The thrown domain errors.  The source throws `Error` objects whose
messages interpolate exactly these data; the embedding keeps them as fields. -/
inductive EngineError where
  | insufficientStock (requested : Nat) (available : Nat)
      (materialType : String) (length : Nat)
  | editPrecheckShort (needed : Nat) (available : Nat)
      (materialType : String) (length : Nat)
  | editConcurrency (materialType : String) (length : Nat)
  | cannotRemove (requested : Nat) (available : Nat)
deriving DecidableEq

/-! ## AllocationSelector

The code pattern `inventory.filter(...).sort((a, b) => new Date(a.createdAt)
- new Date(b.createdAt)).slice(0, qty)`.  JS `Array.prototype.sort` is
stable, modelled by left-to-right insertion placing each element after all
already-placed elements with a `createdAt` not above its own. -/

/-- Stable insertion of one sheet into an already sorted run. -/
def insertSheet (x : Sheet) : List Sheet → List Sheet
  | [] => [x]
  | y :: ys => if y.createdAt ≤ x.createdAt then y :: insertSheet x ys else x :: y :: ys

/-- The stable ascending-`createdAt` sort performed by the source's
comparator. -/
def sortByCreatedAt (l : List Sheet) : List Sheet :=
  l.foldl (fun acc x => insertSheet x acc) []

/-- The predicate of the immediate-use / fulfillment / adjustment filters. -/
def matchesOnHand (mt : String) (len : Nat) (s : Sheet) : Bool :=
  s.materialType == mt && s.length == len && s.status == "On Hand"

/-- Filter the pool to On Hand units of the key and order them FIFO. -/
def matchingOnHand (pool : List Sheet) (mt : String) (len : Nat) : List Sheet :=
  sortByCreatedAt (pool.filter (matchesOnHand mt len))

/-- AllocationSelector: the first `qty` FIFO-ordered matching units
(`.slice(0, qty)`). -/
def selectSheets (pool : List Sheet) (mt : String) (len : Nat) (qty : Nat) : List Sheet :=
  (matchingOnHand pool mt len).take qty

/-- The On Hand count of a (materialType, length) key over a pool. -/
def onHandCount (pool : List Sheet) (mt : String) (len : Nat) : Nat :=
  (pool.filter (matchesOnHand mt len)).length

/-! ### Sorting lemmas -/

theorem insertSheet_perm (x : Sheet) (l : List Sheet) :
    List.Perm (insertSheet x l) (x :: l) := by
  induction l with
  | nil => simp [insertSheet]
  | cons y ys ih =>
      simp only [insertSheet]
      split
      · exact List.Perm.trans (List.Perm.cons y ih) (List.Perm.swap x y ys)
      · exact List.Perm.refl _

theorem sortByCreatedAt_go_perm (l : List Sheet) (acc : List Sheet) :
    List.Perm (l.foldl (fun acc x => insertSheet x acc) acc) (acc ++ l) := by
  induction l generalizing acc with
  | nil => simp
  | cons x xs ih =>
      simp only [List.foldl_cons]
      refine (ih (insertSheet x acc)).trans ?_
      have h1 : List.Perm (insertSheet x acc) (x :: acc) := insertSheet_perm x acc
      refine (List.Perm.append_right xs h1).trans ?_
      have : List.Perm (x :: acc) (acc ++ [x]) := by
        simpa using (List.perm_append_comm : List.Perm ([x] ++ acc) (acc ++ [x]))
      refine (List.Perm.append_right xs this).trans ?_
      simp [List.append_assoc]

theorem sortByCreatedAt_perm (l : List Sheet) :
    List.Perm (sortByCreatedAt l) l := by
  simpa using sortByCreatedAt_go_perm l []

theorem mem_sortByCreatedAt {a : Sheet} {l : List Sheet} :
    a ∈ sortByCreatedAt l ↔ a ∈ l :=
  (sortByCreatedAt_perm l).mem_iff

/-- Ordering relation used by the comparator. -/
def createdLE (a b : Sheet) : Prop := a.createdAt ≤ b.createdAt

theorem insertSheet_sorted {l : List Sheet} (x : Sheet)
    (h : l.Pairwise createdLE) : (insertSheet x l).Pairwise createdLE := by
  induction l with
  | nil => simp [insertSheet, createdLE]
  | cons y ys ih =>
      rcases List.pairwise_cons.mp h with ⟨hy, hys⟩
      simp only [insertSheet]
      split
      · rename_i hle
        refine List.pairwise_cons.mpr ⟨?_, ih hys⟩
        intro b hb
        rcases List.mem_cons.mp ((insertSheet_perm x ys).mem_iff.mp hb) with hbx | hbys
        · subst hbx; exact hle
        · exact hy b hbys
      · rename_i hgt
        refine List.pairwise_cons.mpr ⟨?_, h⟩
        intro b hb
        rcases List.mem_cons.mp hb with hbx | hbys
        · subst hbx; exact Nat.le_of_lt (Nat.lt_of_not_le hgt)
        · exact Nat.le_trans (Nat.le_of_lt (Nat.lt_of_not_le hgt)) (hy b hbys)

theorem sortByCreatedAt_go_sorted (l : List Sheet) (acc : List Sheet)
    (h : acc.Pairwise createdLE) :
    (l.foldl (fun acc x => insertSheet x acc) acc).Pairwise createdLE := by
  induction l generalizing acc with
  | nil => simpa using h
  | cons x xs ih => exact ih _ (insertSheet_sorted x h)

theorem sortByCreatedAt_sorted (l : List Sheet) :
    (sortByCreatedAt l).Pairwise createdLE :=
  sortByCreatedAt_go_sorted l [] (by simp)

/-- Stability of the insertion: inserting an element with timestamp `t` into
a sorted run appends it after the run's `t`-elements; inserting any other
element leaves the `t`-slice unchanged. -/
theorem insertSheet_filter_eq (x : Sheet) (t : Nat) {l : List Sheet}
    (h : l.Pairwise createdLE) :
    (insertSheet x l).filter (fun y => y.createdAt == t) =
      if x.createdAt == t then
        l.filter (fun y => y.createdAt == t) ++ [x]
      else l.filter (fun y => y.createdAt == t) := by
  induction l with
  | nil =>
      by_cases hxt : (x.createdAt == t) = true <;>
        simp [insertSheet, List.filter_cons, hxt]
  | cons y ys ih =>
      rcases List.pairwise_cons.mp h with ⟨hy, hys⟩
      simp only [insertSheet]
      split
      · rename_i hle
        by_cases hyt : (y.createdAt == t) = true <;>
          by_cases hxt : (x.createdAt == t) = true <;>
            simp [List.filter_cons, hyt, hxt, ih hys]
      · rename_i hgt
        have hlt : x.createdAt < y.createdAt := Nat.lt_of_not_le hgt
        by_cases hxt : (x.createdAt == t) = true
        · have hxt' : x.createdAt = t := by simpa using hxt
          have hyts : ∀ z ∈ y :: ys, (z.createdAt == t) = false := by
            intro z hz
            have hyz : y.createdAt ≤ z.createdAt := by
              rcases List.mem_cons.mp hz with hzy | hzys
              · subst hzy; exact Nat.le_refl _
              · exact hy z hzys
            have ht : t < z.createdAt := Nat.lt_of_lt_of_le (hxt' ▸ hlt) hyz
            simp [Nat.ne_of_gt ht]
          have hnil : (y :: ys).filter (fun z => z.createdAt == t) = [] := by
            apply List.filter_eq_nil_iff.mpr
            intro z hz
            simp [hyts z hz]
          simp [List.filter_cons, hxt, hnil, hyts y (by simp)]
        · simp [List.filter_cons, hxt]

theorem sortByCreatedAt_go_filter (l : List Sheet) (acc : List Sheet) (t : Nat)
    (h : acc.Pairwise createdLE) :
    (l.foldl (fun acc x => insertSheet x acc) acc).filter
        (fun y => y.createdAt == t) =
      acc.filter (fun y => y.createdAt == t) ++
        l.filter (fun y => y.createdAt == t) := by
  induction l generalizing acc with
  | nil => simp
  | cons x xs ih =>
      simp only [List.foldl_cons]
      rw [ih _ (insertSheet_sorted x h), insertSheet_filter_eq x t h]
      by_cases hxt : (x.createdAt == t) = true
      · simp [List.filter_cons, hxt]
      · simp [List.filter_cons, hxt]

/-- Stability of the sort: for each timestamp, the sorted output lists the
pool's units with that timestamp in their original enumeration order. -/
theorem sortByCreatedAt_filter (l : List Sheet) (t : Nat) :
    (sortByCreatedAt l).filter (fun y => y.createdAt == t) =
      l.filter (fun y => y.createdAt == t) := by
  simpa using sortByCreatedAt_go_filter l [] t (by simp)

/-! ## LedgerTransactionEngine operations -/

/-- The `transaction.update` staged for every chosen sheet. -/
def markUsed (logId : Nat) (jobName : String) (customer : String) (now : Nat)
    (ids : List Nat) (inv : List Sheet) : List Sheet :=
  inv.map fun s =>
    if ids.contains s.id then
      { s with
        status := "Used"
        usageLogId := some logId
        jobNameUsed := some jobName
        customerUsed := some customer
        usedAt := some now }
    else s

/-- The positive per-(materialType, length) requirements of a job's items, in
the source's item-then-standard-length iteration order. -/
def allocReqs (items : List Item) : List (String × Nat × Nat) :=
  items.flatMap fun it =>
    STANDARD_LENGTHS.filterMap fun len =>
      let q := qtyFor it len
      if 0 < q then some (it.materialType, len, q) else none

/-- Select the sheets for every requirement against the (static) client
snapshot, or throw on the first shortfall (`handleUseStock`, immediate
path). -/
def allocate (inv : List Sheet) : List (String × Nat × Nat) →
    Except EngineError (List Sheet)
  | [] => .ok []
  | (mt, len, q) :: rest =>
    let m := matchingOnHand inv mt len
    if m.length < q then
      .error (.insufficientStock q m.length mt len)
    else
      (allocate inv rest).map fun tail => m.take q ++ tail

/-- One job of the immediate path: allocate, stage the unit updates, and set
the Completed record when any unit was consumed.  `doc(usageLogCollectionRef)`
mints a fresh id whether or not the record is written. -/
def processImmediateJob (inv : List Sheet) (now : Nat) (st : EngineState)
    (job : Job) : Except EngineError EngineState :=
  match allocate inv (allocReqs job.items) with
  | .error e => .error e
  | .ok chosen =>
    if chosen.isEmpty then
      .ok { st with nextId := st.nextId + 1 }
    else
      .ok { inventory :=
              markUsed st.nextId (jobNameOrNA job.jobName) job.customer now
                (chosen.map Sheet.id) st.inventory
            logs := st.logs ++
              [{ id := st.nextId
                 job := jobNameOrNA job.jobName
                 customer := job.customer
                 status := some "Completed"
                 createdAt := now
                 usedAt := now
                 fulfilledAt := none
                 details := chosen.map LogDetail.snap
                 qty := -(chosen.length : Int) }]
            nextId := st.nextId + 1 }

/-- The synthetic detail rows for one item of the scheduled path. -/
def synItemsFor (materials : Materials) (it : Item) : List LogDetail :=
  STANDARD_LENGTHS.flatMap fun len =>
    let q := qtyFor it len
    if 0 < q then
      List.replicate q
        (LogDetail.syn it.materialType len 48 (getGaugeFromMaterial it.materialType)
          (((materials.lookup it.materialType).map MaterialInfo.density).getD 0)
          (((materials.lookup it.materialType).map MaterialInfo.thickness).getD 0))
    else []

/-- The `itemsForLog` of the scheduled path.  The source's `totalItems`
counter equals the number of rows pushed, so `details.length` stands for it
below. -/
def syntheticDetails (materials : Materials) (items : List Item) : List LogDetail :=
  items.flatMap (synItemsFor materials)

/-- Whether a job requests a positive quantity for some item and length. -/
def hasPositiveQty (items : List Item) : Bool :=
  items.any fun it => STANDARD_LENGTHS.any fun len => decide (0 < qtyFor it len)

/-- One job of the scheduled path: a pure Scheduled intent record, written
only when some quantity is positive; no inventory read or write. -/
def processScheduledJob (materials : Materials) (scheduledDate : Nat) (now : Nat)
    (st : EngineState) (job : Job) : EngineState :=
  let itemsForLog := syntheticDetails materials job.items
  if itemsForLog.isEmpty then st
  else
    { st with
      logs := st.logs ++
        [{ id := st.nextId
           job := jobNameOrNA job.jobName
           customer := job.customer
           status := some "Scheduled"
           createdAt := now
           usedAt := scheduledDate
           fulfilledAt := none
           details := itemsForLog
           qty := -(itemsForLog.length : Int) }]
      nextId := st.nextId + 1 }

/-- Embeds `handleUseStock(jobs, options)`.  `inv` is the
client-cached `inventory` array the hook closes over — the filters read it,
never the store `st`, exactly as in the source; the writes apply to `st`
all-or-nothing (`runTransaction`). -/
def handleUseStock (materials : Materials) (jobs : List Job) (isScheduled : Bool)
    (scheduledDate : Nat) (now : Nat) (inv : List Sheet) (st : EngineState) :
    Except EngineError EngineState :=
  if isScheduled then
    .ok (jobs.foldl (processScheduledJob materials scheduledDate now) st)
  else
    jobs.foldlM (fun s job => processImmediateJob inv now s job) st

/-- One requirement loop of `UseStockModal.handleSubmit`: filters the snapshot by
`status !== 'Ordered'`, **deletes** the chosen sheets, and writes a record
with no status field whose rows are id-stripped snapshots. -/
def modalAllocate (inv : List Sheet) : List (String × Nat × Nat) →
    Except EngineError (List Sheet)
  | [] => .ok []
  | (mt, len, q) :: rest =>
    let m := sortByCreatedAt (inv.filter fun i =>
      i.materialType == mt && i.length == len && !(i.status == "Ordered"))
    if m.length < q then
      .error (.insufficientStock q m.length mt len)
    else
      (modalAllocate inv rest).map fun tail => m.take q ++ tail

/-- One job of `UseStockModal.handleSubmit`. -/
def modalProcessJob (inv : List Sheet) (now : Nat) (st : EngineState)
    (job : Job) : Except EngineError EngineState :=
  match modalAllocate inv (allocReqs job.items) with
  | .error e => .error e
  | .ok chosen =>
    if chosen.isEmpty then .ok st
    else
      .ok { inventory :=
              st.inventory.filter fun s => !((chosen.map Sheet.id).contains s.id)
            logs := st.logs ++
              [{ id := st.nextId
                 job := job.jobName
                 customer := job.customer
                 status := none
                 createdAt := now
                 usedAt := now
                 fulfilledAt := none
                 details := chosen.map LogDetail.consumed
                 qty := -(chosen.length : Int) }]
            nextId := st.nextId + 1 }

/-- Embeds `UseStockModal.handleSubmit` over the whole job list. -/
def useStockModalSubmit (jobs : List Job) (now : Nat) (inv : List Sheet)
    (st : EngineState) : Except EngineError EngineState :=
  jobs.foldlM (fun s job => modalProcessJob inv now s job) st

/-- Embeds `handleDeleteLog`: unconditional `deleteDoc` of the record; units are not
touched. -/
def handleDeleteLog (logId : Nat) (st : EngineState) : EngineState :=
  { st with logs := st.logs.filter fun l => !(l.id == logId) }

/-! ### EditOutgoingLog (the reconciliation path) -/

/-- Add `d` to the entry of key `k` in the insertion-ordered tally (a JS
object with string keys `mt|len`). -/
def bumpKey (k : String × Nat) (d : Int) : List ((String × Nat) × Int) →
    List ((String × Nat) × Int)
  | [] => [(k, d)]
  | (k', v) :: rest =>
    if k' = k then (k', v + d) :: rest else (k', v) :: bumpKey k d rest

/-- The `netChange` tally: +1 per original detail row, minus qty per requested item and length. -/
def netChangeOf (details : List LogDetail) (items : List Item) :
    List ((String × Nat) × Int) :=
  let base := details.foldl
    (fun acc d => bumpKey (d.detailMaterialType, d.detailLength) 1 acc) []
  items.foldl
    (fun acc it =>
      STANDARD_LENGTHS.foldl
        (fun acc len =>
          let q := qtyFor it len
          if 0 < q then bumpKey (it.materialType, len) (-(q : Int)) acc else acc)
        acc)
    base

/-- The pre-check loop: the first key whose negative net change exceeds the
snapshot's On Hand count, with the needed and available quantities. -/
def firstShortKey (inv : List Sheet) : List ((String × Nat) × Int) →
    Option (String × Nat × Nat × Nat)
  | [] => none
  | ((mt, len), v) :: rest =>
    if v < 0 then
      let needed := v.natAbs
      let avail := onHandCount inv mt len
      if avail < needed then some (mt, len, needed, avail)
      else firstShortKey inv rest
    else firstShortKey inv rest

/-- The re-allocate phase: FIFO selection over the snapshot's On Hand units
excluding the original unit ids; throws the edit-time concurrency error on a
shortfall. -/
def reallocate (inv : List Sheet) (origIds : List Nat) :
    List (String × Nat × Nat) → Except EngineError (List Sheet)
  | [] => .ok []
  | (mt, len, q) :: rest =>
    let matching := sortByCreatedAt (inv.filter fun i =>
      i.materialType == mt && i.length == len && i.status == "On Hand" &&
        !(origIds.contains i.id))
    let sheetsToUse := matching.take q
    if sheetsToUse.length < q then .error (.editConcurrency mt len)
    else
      (reallocate inv origIds rest).map fun tail => sheetsToUse ++ tail

/-- Embeds `handleEditOutgoingLog(originalLog, newLogData)`. -/
def handleEditOutgoingLog (materials : Materials) (originalLog : UsageLog)
    (newData : NewLogData) (now : Nat) (inv : List Sheet) (st : EngineState) :
    Except EngineError EngineState :=
  if originalLog.status == some "Scheduled" then
    let newDetails := syntheticDetails materials newData.items
    .ok { st with
      logs := st.logs.map fun l =>
        if l.id = originalLog.id then
          { l with
            job := jobNameOrNA newData.jobName
            customer := newData.customer
            usedAt := newData.date
            details := newDetails
            qty := -(newDetails.length : Int) }
        else l }
  else
    match firstShortKey inv (netChangeOf originalLog.details newData.items) with
    | some (mt, len, needed, avail) =>
        .error (.editPrecheckShort needed avail mt len)
    | none =>
      let origIds := originalLog.details.filterMap LogDetail.detailId
      let returned := st.inventory.map fun s =>
        if origIds.contains s.id then
          { s with
            status := "On Hand"
            usageLogId := none
            jobNameUsed := none
            customerUsed := none
            usedAt := none }
        else s
      match reallocate inv origIds (allocReqs newData.items) with
      | .error e => .error e
      | .ok chosen =>
        .ok { st with
          inventory :=
            markUsed originalLog.id newData.jobName newData.customer now
              (chosen.map Sheet.id) returned,
          logs := st.logs.map fun l =>
            if l.id = originalLog.id then
              { l with
                job := newData.jobName
                customer := newData.customer
                details := chosen.map LogDetail.snap
                qty := -(chosen.length : Int) }
            else l }

/-! ### ManualStockAdjust -/

/-- The `stockData` of a manual addition: distinguished origin, zero cost. -/
def mkManualSheet (materials : Materials) (mt : String) (len : Nat) (now : Nat)
    (id : Nat) : Sheet :=
  { id := id
    materialType := mt
    gauge := getGaugeFromMaterial mt
    length := len
    width := 48
    supplier := "Manual Edit"
    costPerPound := 0
    createdAt := now
    job := "MODIFICATION: ADD"
    status := "On Hand"
    arrivalDate := none
    dateReceived := some now
    density := some (((materials.lookup mt).map MaterialInfo.density).getD 0)
    thickness := some (((materials.lookup mt).map MaterialInfo.thickness).getD 0)
    usageLogId := none
    jobNameUsed := none
    customerUsed := none
    usedAt := none }

/-- Embeds `handleStockEdit(materialType, length, newQuantity)`.  `currentQuantity`
is the hook's `inventorySummary[materialType]?.[length] || 0` input, computed
by the missing `calculateInventorySummary`; per the App wiring it equals
`onHandCount inv mt len` (see `inventorySummaryCount`). -/
def handleStockEdit (materials : Materials) (currentQuantity : Nat)
    (mt : String) (len : Nat) (newQuantity : Nat) (now : Nat)
    (inv : List Sheet) (st : EngineState) : Except EngineError EngineState :=
  let diff : Int := (newQuantity : Int) - (currentQuantity : Int)
  if diff = 0 then .ok st
  else if 0 < diff then
    .ok { st with
      inventory := st.inventory ++
        (List.range diff.toNat).map
          (fun i => mkManualSheet materials mt len now (st.nextId + i))
      nextId := st.nextId + diff.toNat }
  else
    let sheetsToRemove := diff.natAbs
    let availableSheets := matchingOnHand inv mt len
    if availableSheets.length < sheetsToRemove then
      .error (.cannotRemove sheetsToRemove availableSheets.length)
    else
      let delIds := (availableSheets.take sheetsToRemove).map Sheet.id
      .ok { st with
        inventory := st.inventory.filter fun s => !(delIds.contains s.id) }

/-- Modelled from the spec: `calculateInventorySummary` lives in the missing
`utils/dataProcessing.js`; per §3 "the count of OnHand units sharing a
(materialType, length) pair is the authoritative available stock", its entry
for a key is the On Hand count of that key. -/
def inventorySummaryCount (inv : List Sheet) (mt : String) (len : Nat) : Nat :=
  onHandCount inv mt len

/-! ### AddOrEditOrder -/

/-- The original order group of an edit: its lot date fields and the ids of
the units it references (`originalOrderGroup.details[i].id`). -/
structure OrderGroup where
  date : Option Nat
  dateOrdered : Nat
  detailIds : List Nat
deriving DecidableEq

/-- Source expression `originalOrderGroup.date || originalOrderGroup.dateOrdered`. -/
def OrderGroup.lotDate (g : OrderGroup) : Nat := g.date.getD g.dateOrdered

/-- Every (job, item, length) unit-creation slot of an order, one entry per
created unit, in source iteration order. -/
def orderRows (jobs : List Job) : List (Job × Item × Nat) :=
  jobs.flatMap fun j =>
    j.items.flatMap fun it =>
      STANDARD_LENGTHS.flatMap fun len =>
        List.replicate (qtyFor it len) (j, it, len)

/-- The sheet written for one creation slot. -/
def mkOrderSheet (createdAtVal : Nat) (row : Job × Item × Nat) (id : Nat) :
    Sheet :=
  let (j, it, len) := row
  { id := id
    materialType := it.materialType
    gauge := getGaugeFromMaterial it.materialType
    length := len
    width := 48
    supplier := j.supplier
    costPerPound := it.costPerPound
    createdAt := createdAtVal
    job := jobNameOrNA j.jobName
    status := j.status
    arrivalDate := if j.status = "Ordered" then j.arrivalDate else none
    dateReceived := none
    density := none
    thickness := none
    usageLogId := none
    jobNameUsed := none
    customerUsed := none
    usedAt := none }

/-- All sheets created by an order call, with fresh sequential ids. -/
def mkOrderSheets (createdAtVal : Nat) (jobs : List Job) (startId : Nat) :
    List Sheet :=
  (orderRows jobs).enum.map fun p => mkOrderSheet createdAtVal p.2 (startId + p.1)

/-- Embeds `handleAddOrEditOrder(jobs, originalOrderGroup)`: when editing, delete
every unit the original group references, then create the new units; the lot
timestamp is the original group's date when editing, else the time of the
call. -/
def handleAddOrEditOrder (jobs : List Job) (originalGroup : Option OrderGroup)
    (now : Nat) (st : EngineState) : EngineState :=
  let kept := match originalGroup with
    | some g => st.inventory.filter fun s => !(g.detailIds.contains s.id)
    | none => st.inventory
  let createdAtVal := match originalGroup with
    | some g => g.lotDate
    | none => now
  { st with
    inventory := kept ++ mkOrderSheets createdAtVal jobs st.nextId
    nextId := st.nextId + (orderRows jobs).length }

/-! ### DeleteCategoryCascade -/

/-- One material-master document (`Object.values(materials)` entry). -/
structure MaterialDoc where
  id : String
  category : String
deriving DecidableEq

/-- The id sanitizer replacing every slash by a dash. -/
def sanitizeId (s : String) : String :=
  s.map fun c => if c = '/' then '-' else c

/-- A document reference staged for deletion. -/
inductive DocRef where
  | material (id : String)
  | sheet (id : Nat)
deriving DecidableEq

/-- The `allDocRefsToDelete` list: the materials under the named categories followed
by every inventory unit of those materials. -/
def allDocRefsToDelete (materialDocs : List MaterialDoc) (inv : List Sheet)
    (cats : List String) : List DocRef :=
  let materialIdsToDelete :=
    (materialDocs.filter fun m => cats.contains m.category).map MaterialDoc.id
  (materialIdsToDelete.map fun id => DocRef.material (sanitizeId id)) ++
    ((inv.filter fun s => materialIdsToDelete.contains s.materialType).map
      fun s => DocRef.sheet s.id)

/-- Structural (fuel-indexed) chunking, fuel ≥ length. -/
def chunksOfAux (n : Nat) : Nat → List DocRef → List (List DocRef)
  | 0, _ => []
  | _, [] => []
  | fuel + 1, x :: xs => (x :: xs).take n :: chunksOfAux n fuel ((x :: xs).drop n)

/-- The `for (let i = 0; i < refs.length; i += MAX_BATCH_SIZE)` chunking:
slices of at most `n` in order. -/
def chunksOf (n : Nat) (l : List DocRef) : List (List DocRef) :=
  chunksOfAux n l.length l

/-- Embeds `handleConfirmDeleteCategories`, viewed as the sequence of bulk-write
commits it issues (`MAX_BATCH_SIZE = 500`, one `batch.commit()` per chunk,
committed sequentially, not atomic across chunks). -/
def handleConfirmDeleteCategories (materialDocs : List MaterialDoc)
    (inv : List Sheet) (cats : List String) : List (List DocRef) :=
  chunksOf 500 (allDocRefsToDelete materialDocs inv cats)

/-! ### The usageLogId invariant -/

/-- The spec invariant: `usageLogId` is set on a unit iff the unit is Used and
appears in the details of the still-existing record it references. -/
def usageRefInvariant (st : EngineState) : Prop :=
  ∀ s ∈ st.inventory,
    s.usageLogId.isSome ↔
      (s.status = "Used" ∧
        ∃ l ∈ st.logs, some l.id = s.usageLogId ∧
          ∃ d ∈ l.details, d.detailId = some s.id)

instance (st : EngineState) : Decidable (usageRefInvariant st) := by
  unfold usageRefInvariant
  infer_instance

/-! ## Concrete instances used by counterexamples and witnesses -/

/-- A template sheet for concrete instances. -/
def baseSheet : Sheet :=
  { id := 0
    materialType := "A16GA"
    gauge := "16GA"
    length := 96
    width := 48
    supplier := "Acme"
    costPerPound := 2
    createdAt := 10
    job := "J1"
    status := "On Hand"
    arrivalDate := none
    dateReceived := some 3
    density := none
    thickness := none
    usageLogId := none
    jobNameUsed := none
    customerUsed := none
    usedAt := none }

/-- A one-item request of `q` sheets of A16GA at 96. -/
def reqItem (q : Nat) : Item :=
  { materialType := "A16GA", qty96 := q, qty120 := 0, qty144 := 0, costPerPound := 0 }

/-- A one-item job requesting `q` sheets of A16GA at 96. -/
def reqJob (q : Nat) : Job :=
  { jobName := "steelJob", customer := "C", items := [reqItem q], status := "",
    supplier := "", arrivalDate := none }

/-! ## C4 — AllocationSelector FIFO determinism -/

/-- C4 (confirmed): allocation selection takes the first `quantity` units of
the pool filtered to the key, ordered ascending by `createdAt` with ties kept
in the pool's original enumeration order (the permutation, sortedness and
per-timestamp stability conjuncts pin the order down uniquely), and repeated
calls on identical inputs return identical results. -/
theorem claim_c4_allocation_fifo_deterministic (pool : List Sheet) (mt : String)
    (len : Nat) (q : Nat) :
    List.Perm (matchingOnHand pool mt len) (pool.filter (matchesOnHand mt len)) ∧
    (matchingOnHand pool mt len).Pairwise createdLE ∧
    (∀ t : Nat,
      (matchingOnHand pool mt len).filter (fun y => y.createdAt == t) =
        (pool.filter (matchesOnHand mt len)).filter (fun y => y.createdAt == t)) ∧
    selectSheets pool mt len q = (matchingOnHand pool mt len).take q ∧
    ∀ pool2 q2, pool2 = pool → q2 = q →
      selectSheets pool2 mt len q2 = selectSheets pool mt len q := by
  refine ⟨sortByCreatedAt_perm _, sortByCreatedAt_sorted _, ?_, rfl, ?_⟩
  · intro t
    exact sortByCreatedAt_filter _ t
  · intro pool2 q2 h1 h2
    rw [h1, h2]

/-- C4 witness: the theorem applied at a concrete pool and quantity. -/
theorem claim_c4_allocation_fifo_deterministic_witness :
    List.Perm (matchingOnHand [baseSheet] "A16GA" 96)
      ([baseSheet].filter (matchesOnHand "A16GA" 96)) ∧
    (matchingOnHand [baseSheet] "A16GA" 96).Pairwise createdLE ∧
    (∀ t : Nat,
      (matchingOnHand [baseSheet] "A16GA" 96).filter (fun y => y.createdAt == t) =
        ([baseSheet].filter (matchesOnHand "A16GA" 96)).filter
          (fun y => y.createdAt == t)) ∧
    selectSheets [baseSheet] "A16GA" 96 1 =
      (matchingOnHand [baseSheet] "A16GA" 96).take 1 ∧
    ∀ pool2 q2, pool2 = [baseSheet] → q2 = 1 →
      selectSheets pool2 "A16GA" 96 q2 = selectSheets [baseSheet] "A16GA" 96 1 :=
  claim_c4_allocation_fifo_deterministic [baseSheet] "A16GA" 96 1

/-! ## C5 — the usageLogId iff invariant vs record deletion -/

/-- A Used sheet back-referencing record 1. -/
def c5_sheet : Sheet :=
  { baseSheet with
    id := 5
    status := "Used"
    usageLogId := some 1
    jobNameUsed := some "J"
    customerUsed := some "C"
    usedAt := some 20 }

/-- The Completed record consuming `c5_sheet`. -/
def c5_log : UsageLog :=
  { id := 1, job := "J", customer := "C", status := some "Completed",
    createdAt := 20, usedAt := 20, fulfilledAt := none,
    details := [.snap c5_sheet], qty := -1 }

/-- A store satisfying the invariant. -/
def c5_before : EngineState :=
  { inventory := [c5_sheet], logs := [c5_log], nextId := 2 }

/-- C5 (code bug): the iff invariant holds before deleting record 1, but
`handleDeleteLog` removes the record without touching the unit, leaving the
unit Used with a dangling `usageLogId` — the invariant fails after the
operation, against the spec's stated invariant. -/
theorem claim_c5_deleteLog_dangling :
    usageRefInvariant c5_before ∧
    ¬ usageRefInvariant (handleDeleteLog 1 c5_before) ∧
    (handleDeleteLog 1 c5_before).inventory = c5_before.inventory ∧
    (handleDeleteLog 1 c5_before).logs = [] := by
  refine ⟨by decide, by decide, rfl, rfl⟩

/-! ## C6 — availability reads come from the client snapshot -/

/-- The stale client view of unit 7: still On Hand. -/
def c6_snapshotSheet : Sheet := { baseSheet with id := 7 }

/-- The authoritative store state of unit 7: already Used. -/
def c6_storeSheet : Sheet :=
  { baseSheet with
    id := 7
    status := "Used"
    usageLogId := some 99
    jobNameUsed := some "other"
    customerUsed := some "X"
    usedAt := some 50 }

/-- The store, holding no On Hand unit at all. -/
def c6_store : EngineState := { inventory := [c6_storeSheet], logs := [], nextId := 10 }

/-- C6 (code bug): the store has zero On Hand units of the key, yet the
immediate UseStock succeeds because its availability filter runs over the
externally supplied client snapshot, re-marking the already-consumed unit —
the read never went through the transaction against the store. -/
theorem claim_c6_reads_snapshot_not_store :
    onHandCount c6_store.inventory "A16GA" 96 = 0 ∧
    handleUseStock [] [reqJob 1] false 0 60 [c6_snapshotSheet] c6_store =
      .ok { inventory :=
              [{ c6_storeSheet with
                  status := "Used"
                  usageLogId := some 10
                  jobNameUsed := some "steelJob"
                  customerUsed := some "C"
                  usedAt := some 60 }]
            logs :=
              [{ id := 10, job := "steelJob", customer := "C",
                 status := some "Completed", createdAt := 60, usedAt := 60,
                 fulfilledAt := none, details := [.snap c6_snapshotSheet],
                 qty := -1 }]
            nextId := 11 } := by
  exact ⟨rfl, rfl⟩

/-! ## C8 — cascade delete chunking -/

theorem chunksOfAux_flatten (n : Nat) (hn : 0 < n) :
    ∀ (fuel : Nat) (l : List DocRef), l.length ≤ fuel →
      (chunksOfAux n fuel l).flatten = l := by
  intro fuel
  induction fuel with
  | zero =>
      intro l hl
      have hnil : l = [] := List.eq_nil_of_length_eq_zero (Nat.le_zero.mp hl)
      subst hnil
      rfl
  | succ fuel ih =>
      intro l hl
      cases l with
      | nil => rfl
      | cons x xs =>
          simp only [chunksOfAux, List.flatten_cons]
          rw [ih]
          · exact List.take_append_drop n (x :: xs)
          · simp only [List.length_drop, List.length_cons] at *
            omega

theorem chunksOfAux_bounds (n : Nat) (hn : 0 < n) :
    ∀ (fuel : Nat) (l : List DocRef), ∀ b ∈ chunksOfAux n fuel l,
      0 < b.length ∧ b.length ≤ n := by
  intro fuel
  induction fuel with
  | zero =>
      intro l b hb
      simp [chunksOfAux] at hb
  | succ fuel ih =>
      intro l b hb
      cases l with
      | nil => simp [chunksOfAux] at hb
      | cons x xs =>
          simp only [chunksOfAux] at hb
          rcases List.mem_cons.mp hb with hb | hb
          · subst hb
            refine ⟨?_, ?_⟩
            · simp only [List.length_take, List.length_cons]
              omega
            · simp only [List.length_take]
              omega
          · exact ih _ b hb

/-- The single material document of the chunking scenario. -/
def c8_mat : MaterialDoc := { id := "M", category := "Cat" }

/-- The 1200 inventory units of that material. -/
def c8_units : List Sheet :=
  (List.range 1200).map fun i => { baseSheet with id := i, materialType := "M" }

/-- C8 (corrected): category cascade deletion issues sequential bulk-write
commits of at most 500 operations each whose concatenation is exactly the
material documents followed by their units; but a category with one material
and 1200 units deletes 1201 documents, so the three commits have sizes
500, 500 and 201 — not 500/500/200 as claimed. -/
theorem claim_c8_cascade_chunked :
    (∀ (materialDocs : List MaterialDoc) (inv : List Sheet) (cats : List String),
      (handleConfirmDeleteCategories materialDocs inv cats).flatten =
        allDocRefsToDelete materialDocs inv cats ∧
      ∀ b ∈ handleConfirmDeleteCategories materialDocs inv cats,
        0 < b.length ∧ b.length ≤ 500) ∧
    (handleConfirmDeleteCategories [c8_mat] c8_units ["Cat"]).map List.length =
      [500, 500, 201] := by
  constructor
  · intro md inv cats
    exact ⟨chunksOfAux_flatten 500 (by omega) _ _ (Nat.le_refl _),
      fun b hb => chunksOfAux_bounds 500 (by omega) _ _ b hb⟩
  · rfl

/-- C8 counterexample: for one material and 1200 units the commit sizes are
500/500/201, refuting the claimed 500/500/200. -/
theorem claim_c8_counterexample :
    (handleConfirmDeleteCategories [c8_mat] c8_units ["Cat"]).map List.length ≠
      [500, 500, 200] := by
  decide

/-- C8 witness: the general chunking facts applied at the concrete 1201
document cascade. -/
theorem claim_c8_cascade_chunked_witness :
    (handleConfirmDeleteCategories [c8_mat] c8_units ["Cat"]).flatten =
      allDocRefsToDelete [c8_mat] c8_units ["Cat"] ∧
    ∀ b ∈ handleConfirmDeleteCategories [c8_mat] c8_units ["Cat"],
      0 < b.length ∧ b.length ≤ 500 :=
  claim_c8_cascade_chunked.1 [c8_mat] c8_units ["Cat"]

/-! ## C9 — the scheduled path writes pure intent records -/

theorem synItemsFor_all_syn (materials : Materials) (it : Item) :
    ∀ dt ∈ synItemsFor materials it,
      ∃ mt ln w g de th, dt = LogDetail.syn mt ln w g de th := by
  intro dt hdt
  simp only [synItemsFor, List.mem_flatMap] at hdt
  rcases hdt with ⟨len, _, hmem⟩
  split at hmem
  · have := List.eq_of_mem_replicate hmem
    subst this
    exact ⟨_, _, _, _, _, _, rfl⟩
  · simp at hmem

theorem syntheticDetails_all_syn (materials : Materials) (items : List Item) :
    ∀ dt ∈ syntheticDetails materials items,
      ∃ mt ln w g de th, dt = LogDetail.syn mt ln w g de th := by
  intro dt hdt
  simp only [syntheticDetails, List.mem_flatMap] at hdt
  rcases hdt with ⟨it, _, hmem⟩
  exact synItemsFor_all_syn materials it dt hmem

theorem syntheticDetails_eq_nil_iff (materials : Materials) (items : List Item) :
    syntheticDetails materials items = [] ↔ hasPositiveQty items = false := by
  simp only [syntheticDetails, synItemsFor, List.flatMap_eq_nil_iff,
    hasPositiveQty]
  constructor
  · intro h
    by_contra hpos
    rw [Bool.not_eq_false, List.any_eq_true] at hpos
    rcases hpos with ⟨it, hit, hlen⟩
    rw [List.any_eq_true] at hlen
    rcases hlen with ⟨len, hlenmem, hq⟩
    rw [decide_eq_true_eq] at hq
    have hthis := h it hit len hlenmem
    rw [if_pos hq] at hthis
    have hzero : qtyFor it len = 0 := by
      simpa using congrArg List.length hthis
    omega
  · intro h it hit len hlenmem
    by_cases hq : 0 < qtyFor it len
    · exfalso
      have hany : (items.any fun it =>
          STANDARD_LENGTHS.any fun len => decide (0 < qtyFor it len)) = true := by
        rw [List.any_eq_true]
        refine ⟨it, hit, ?_⟩
        rw [List.any_eq_true]
        exact ⟨len, hlenmem, by simpa using hq⟩
      rw [h] at hany
      cases hany
    · rw [if_neg hq]

/-- Frame and record shape of the scheduled fold. -/
theorem scheduled_fold_props (materials : Materials) (d now : Nat) :
    ∀ (jobs : List Job) (st : EngineState),
      (jobs.foldl (processScheduledJob materials d now) st).inventory =
          st.inventory ∧
      (jobs.foldl (processScheduledJob materials d now) st).logs.length =
          st.logs.length + (jobs.countP fun j => hasPositiveQty j.items) ∧
      ∀ l ∈ (jobs.foldl (processScheduledJob materials d now) st).logs,
        l ∈ st.logs ∨
          (l.status = some "Scheduled" ∧ l.qty = -(l.details.length : Int) ∧
            ∀ dt ∈ l.details, ∃ mt ln w g de th, dt = LogDetail.syn mt ln w g de th) := by
  intro jobs
  induction jobs with
  | nil =>
      intro st
      exact ⟨rfl, by simp, fun l hl => Or.inl hl⟩
  | cons j rest ih =>
      intro st
      have hstep :
          (processScheduledJob materials d now st j).inventory = st.inventory ∧
          (processScheduledJob materials d now st j).logs.length =
            st.logs.length + (if hasPositiveQty j.items then 1 else 0) ∧
          ∀ l ∈ (processScheduledJob materials d now st j).logs,
            l ∈ st.logs ∨
              (l.status = some "Scheduled" ∧ l.qty = -(l.details.length : Int) ∧
                ∀ dt ∈ l.details,
                  ∃ mt ln w g de th, dt = LogDetail.syn mt ln w g de th) := by
        by_cases hpos : hasPositiveQty j.items = true
        · have hne : ¬ (syntheticDetails materials j.items = []) := by
            intro hnil
            rw [syntheticDetails_eq_nil_iff] at hnil
            rw [hpos] at hnil
            cases hnil
          have hne' : (syntheticDetails materials j.items).isEmpty = false := by
            cases hd : syntheticDetails materials j.items with
            | nil => exact absurd hd hne
            | cons a tl => rfl
          refine ⟨?_, ?_, ?_⟩
          · simp [processScheduledJob, hne']
          · simp [processScheduledJob, hne', hpos]
          · intro l hl
            simp only [processScheduledJob, hne', Bool.false_eq_true,
              if_false, List.mem_append] at hl
            rcases hl with hl | hl
            · exact Or.inl hl
            · rcases List.mem_singleton.mp hl with rfl
              refine Or.inr ⟨rfl, rfl, ?_⟩
              exact syntheticDetails_all_syn materials j.items
        · have hfalse : hasPositiveQty j.items = false := by
            revert hpos
            cases hasPositiveQty j.items <;> simp
          have hnil : syntheticDetails materials j.items = [] :=
            (syntheticDetails_eq_nil_iff materials j.items).mpr hfalse
          have hemp : (syntheticDetails materials j.items).isEmpty = true := by
            rw [hnil]; rfl
          refine ⟨?_, ?_, ?_⟩
          · simp [processScheduledJob, hemp]
          · simp [processScheduledJob, hemp, hpos]
          · intro l hl
            simp only [processScheduledJob, hemp, if_true] at hl
            exact Or.inl hl
      rcases hstep with ⟨hi, hlen, hmem⟩
      rcases ih (processScheduledJob materials d now st j) with ⟨ihi, ihlen, ihmem⟩
      refine ⟨?_, ?_, ?_⟩
      · simpa [List.foldl_cons, hi] using ihi
      · simp only [List.foldl_cons] at *
        rw [ihlen, hlen, List.countP_cons]
        by_cases hpos : hasPositiveQty j.items = true
        · simp only [hpos, if_true]
          omega
        · simp only [hpos, if_false]
          omega
      · intro l hl
        simp only [List.foldl_cons] at hl
        rcases ihmem l hl with hmem' | hgood
        · exact hmem l hmem'
        · exact Or.inr hgood

/-- C9 (corrected): the scheduled path always succeeds, never reads or
mutates any inventory unit, and writes one Scheduled record — whose details
are synthetic descriptors and whose qty is the negative of their count — per
job that requests at least one positive quantity (a job whose quantities are
all zero produces no record, contrary to "one record per job"). -/
theorem claim_c9_scheduled_pure_intent (materials : Materials) (jobs : List Job)
    (d now : Nat) (inv : List Sheet) (st : EngineState) :
    ∃ st', handleUseStock materials jobs true d now inv st = .ok st' ∧
      st'.inventory = st.inventory ∧
      st'.logs.length = st.logs.length +
        (jobs.countP fun j => hasPositiveQty j.items) ∧
      ∀ l ∈ st'.logs, l ∉ st.logs →
        l.status = some "Scheduled" ∧ l.qty = -(l.details.length : Int) ∧
        ∀ dt ∈ l.details, ∃ mt ln w g de th, dt = LogDetail.syn mt ln w g de th := by
  refine ⟨jobs.foldl (processScheduledJob materials d now) st, rfl, ?_, ?_, ?_⟩
  · exact (scheduled_fold_props materials d now jobs st).1
  · exact (scheduled_fold_props materials d now jobs st).2.1
  · intro l hl hnot
    rcases (scheduled_fold_props materials d now jobs st).2.2 l hl with h | h
    · exact absurd h hnot
    · exact h

/-- An all-zero job. -/
def c9_zero_job : Job :=
  { jobName := "z", customer := "C", items := [reqItem 0], status := "",
    supplier := "", arrivalDate := none }

/-- An empty store. -/
def c9_state : EngineState := { inventory := [], logs := [], nextId := 0 }

/-- C9 counterexample: a scheduled batch of one job with all-zero quantities
writes no record at all, refuting "one record with status Scheduled is
written per job in the batch". -/
theorem claim_c9_counterexample :
    handleUseStock [] [c9_zero_job] true 0 0 [] c9_state = .ok c9_state ∧
    c9_state.logs.length = 0 :=
  ⟨rfl, rfl⟩

/-- C9 witness: the amended theorem applied at a concrete scheduled batch. -/
theorem claim_c9_scheduled_pure_intent_witness :
    ∃ st', handleUseStock [] [reqJob 2] true 5 6 [] c9_state = .ok st' ∧
      st'.inventory = c9_state.inventory ∧
      st'.logs.length = c9_state.logs.length +
        ([reqJob 2].countP fun j => hasPositiveQty j.items) ∧
      ∀ l ∈ st'.logs, l ∉ c9_state.logs →
        l.status = some "Scheduled" ∧ l.qty = -(l.details.length : Int) ∧
        ∀ dt ∈ l.details, ∃ mt ln w g de th, dt = LogDetail.syn mt ln w g de th :=
  claim_c9_scheduled_pure_intent [] [reqJob 2] 5 6 [] c9_state

/-! ## C10 — order edits keep the original lot timestamp -/

theorem mkOrderSheets_createdAt (caVal : Nat) (jobs : List Job) (startId : Nat) :
    ∀ s ∈ mkOrderSheets caVal jobs startId, s.createdAt = caVal := by
  intro s hs
  simp only [mkOrderSheets, List.mem_map] at hs
  rcases hs with ⟨p, _, rfl⟩
  rcases p with ⟨i, j, it, len⟩
  rfl

/-- C10 (confirmed): every unit newly created by `handleAddOrEditOrder`
carries, as its `createdAt` lot timestamp, the original group's date (falling
back to its order date) when an original group is given, and the time of the
call only when none is. -/
theorem claim_c10_order_edit_lot_date (jobs : List Job) (og : Option OrderGroup)
    (now : Nat) (st : EngineState) :
    ∀ s ∈ (handleAddOrEditOrder jobs og now st).inventory, s ∉ st.inventory →
      s.createdAt = match og with
        | some g => g.lotDate
        | none => now := by
  intro s hs hnot
  cases og with
  | none =>
      simp only [handleAddOrEditOrder, List.mem_append] at hs
      rcases hs with hs | hs
      · exact absurd hs hnot
      · exact mkOrderSheets_createdAt now jobs st.nextId s hs
  | some g =>
      simp only [handleAddOrEditOrder, List.mem_append] at hs
      rcases hs with hs | hs
      · exact absurd (List.mem_of_mem_filter hs) hnot
      · exact mkOrderSheets_createdAt g.lotDate jobs st.nextId s hs

/-! ## C7 — manual stock adjustment -/

theorem matchingOnHand_length (pool : List Sheet) (mt : String) (len : Nat) :
    (matchingOnHand pool mt len).length = onHandCount pool mt len :=
  (sortByCreatedAt_perm _).length_eq

theorem contains_eq_true_of_mem {ids : List Nat} {a : Nat} (h : a ∈ ids) :
    ids.contains a = true := List.elem_iff.mpr h

theorem contains_eq_false_of_not_mem {ids : List Nat} {a : Nat} (h : a ∉ ids) :
    ids.contains a = false := by
  by_contra hc
  rw [Bool.not_eq_false] at hc
  exact h (List.elem_iff.mp hc)

theorem nodup_ids_filter {l : List Sheet} (p : Sheet → Bool)
    (h : (l.map Sheet.id).Nodup) : ((l.filter p).map Sheet.id).Nodup := by
  have hsub : (l.filter p).Sublist l := List.filter_sublist l
  exact h.sublist (hsub.map Sheet.id)

theorem filter_comm_bool (p q : Sheet → Bool) (l : List Sheet) :
    (l.filter p).filter q = (l.filter q).filter p := by
  induction l with
  | nil => rfl
  | cons x xs ih =>
      by_cases hp : p x = true
      · by_cases hq : q x = true
        · simp [List.filter_cons, hp, hq, ih]
        · simp [List.filter_cons, hp, hq, ih]
      · by_cases hq : q x = true
        · simp [List.filter_cons, hp, hq, ih]
        · simp [List.filter_cons, hp, hq, ih]

/-- C7 (confirmed): manual adjustment computes the difference against the
summary's current count; zero difference writes nothing; a positive
difference creates exactly that many On Hand units with the manual-edit
origin and zero cost; a negative difference FIFO-selects that many On Hand
units (the AllocationSelector prefix) and permanently deletes them — the
surviving inventory is a subset of the old, nothing is marked Used — failing
when fewer are available; and on success the On Hand count of the key equals
the requested quantity.  The first conjunct covers the failure check against
an arbitrary summary input; the rest assume the summary equals the modelled
On Hand count (`inventorySummaryCount`) as wired in App. -/
theorem claim_c7_manual_adjust (materials : Materials) (currentQuantity : Nat)
    (mt : String) (len : Nat) (newQuantity : Nat) (now : Nat)
    (inv : List Sheet) (st : EngineState) :
    ((newQuantity < currentQuantity ∧
        onHandCount inv mt len < currentQuantity - newQuantity) →
      handleStockEdit materials currentQuantity mt len newQuantity now inv st =
        .error (.cannotRemove (currentQuantity - newQuantity)
          (onHandCount inv mt len))) ∧
    (currentQuantity = inventorySummaryCount inv mt len →
     inv = st.inventory →
     (st.inventory.map Sheet.id).Nodup →
      (newQuantity = currentQuantity →
        handleStockEdit materials currentQuantity mt len newQuantity now inv st =
          .ok st) ∧
      (currentQuantity < newQuantity →
        ∃ news,
          handleStockEdit materials currentQuantity mt len newQuantity now inv st =
            .ok { st with
                  inventory := st.inventory ++ news
                  nextId := st.nextId + (newQuantity - currentQuantity) } ∧
          news.length = newQuantity - currentQuantity ∧
          (∀ s ∈ news, s.status = "On Hand" ∧ s.supplier = "Manual Edit" ∧
            s.job = "MODIFICATION: ADD" ∧ s.costPerPound = 0 ∧
            s.materialType = mt ∧ s.length = len) ∧
          onHandCount (st.inventory ++ news) mt len = newQuantity) ∧
      (newQuantity < currentQuantity →
        ∃ st',
          handleStockEdit materials currentQuantity mt len newQuantity now inv st =
            .ok st' ∧
          (∀ s ∈ st'.inventory, s ∈ st.inventory) ∧
          (∀ s ∈ st.inventory, (s ∉ st'.inventory ↔
            s.id ∈ (selectSheets inv mt len (currentQuantity - newQuantity)).map
              Sheet.id)) ∧
          onHandCount st'.inventory mt len = newQuantity)) := by
  constructor
  · rintro ⟨hlt, hshort⟩
    have hd0 : ¬ ((newQuantity : Int) - (currentQuantity : Int) = 0) := by omega
    have hdpos : ¬ (0 < (newQuantity : Int) - (currentQuantity : Int)) := by omega
    have habs : ((newQuantity : Int) - (currentQuantity : Int)).natAbs =
        currentQuantity - newQuantity := by omega
    simp only [handleStockEdit, if_neg hd0, if_neg hdpos, habs,
      matchingOnHand_length]
    rw [if_pos hshort]
  · intro hsum hinv hnodup
    refine ⟨?_, ?_, ?_⟩
    · intro heq
      have hd0 : ((newQuantity : Int) - (currentQuantity : Int)) = 0 := by omega
      simp only [handleStockEdit, hd0, if_pos]
    · intro hlt
      have hd0 : ¬ ((newQuantity : Int) - (currentQuantity : Int) = 0) := by omega
      have hdpos : (0 < (newQuantity : Int) - (currentQuantity : Int)) := by omega
      have htonat : ((newQuantity : Int) - (currentQuantity : Int)).toNat =
          newQuantity - currentQuantity := by omega
      refine ⟨(List.range (newQuantity - currentQuantity)).map
          (fun i => mkManualSheet materials mt len now (st.nextId + i)),
        ?_, ?_, ?_, ?_⟩
      · simp only [handleStockEdit, if_neg hd0, if_pos hdpos, htonat]
      · simp
      · intro s hs
        simp only [List.mem_map, List.mem_range] at hs
        rcases hs with ⟨i, _, rfl⟩
        exact ⟨rfl, rfl, rfl, rfl, rfl, rfl⟩
      · have hmatch : ∀ s ∈ (List.range (newQuantity - currentQuantity)).map
            (fun i => mkManualSheet materials mt len now (st.nextId + i)),
            matchesOnHand mt len s = true := by
          intro s hs
          simp only [List.mem_map, List.mem_range] at hs
          rcases hs with ⟨i, _, rfl⟩
          simp [matchesOnHand, mkManualSheet]
        have hc : onHandCount st.inventory mt len = currentQuantity := by
          rw [hsum, inventorySummaryCount, hinv]
        simp only [onHandCount, List.filter_append, List.length_append,
          List.filter_eq_self.mpr hmatch, List.length_map, List.length_range]
        rw [show (st.inventory.filter (matchesOnHand mt len)).length =
            currentQuantity from hc]
        omega
    · intro hlt
      have hd0 : ¬ ((newQuantity : Int) - (currentQuantity : Int) = 0) := by omega
      have hdpos : ¬ (0 < (newQuantity : Int) - (currentQuantity : Int)) := by omega
      have habs : ((newQuantity : Int) - (currentQuantity : Int)).natAbs =
          currentQuantity - newQuantity := by omega
      have hMlen : (matchingOnHand inv mt len).length = currentQuantity := by
        rw [matchingOnHand_length]
        rw [hsum, inventorySummaryCount]
      have hnoerr : ¬ ((matchingOnHand inv mt len).length <
          currentQuantity - newQuantity) := by omega
      refine ⟨{ st with inventory := st.inventory.filter fun s =>
          !((((matchingOnHand inv mt len).take
              (currentQuantity - newQuantity)).map Sheet.id).contains s.id) },
        ?_, ?_, ?_, ?_⟩
      · simp only [handleStockEdit, if_neg hd0, if_neg hdpos, habs]
        rw [if_neg hnoerr]
      · intro s hs
        exact (List.mem_filter.mp hs).1
      · intro s hsmem
        constructor
        · intro hnot
          by_contra hid
          refine hnot (List.mem_filter.mpr ⟨hsmem, ?_⟩)
          rw [contains_eq_false_of_not_mem (by simpa [selectSheets] using hid)]
          rfl
        · intro hid hmem
          have := (List.mem_filter.mp hmem).2
          rw [contains_eq_true_of_mem (by simpa [selectSheets] using hid)] at this
          cases this
      · -- On Hand count after deleting the FIFO prefix
        set k := currentQuantity - newQuantity with hk
        set M := matchingOnHand inv mt len with hM
        set delIds := (M.take k).map Sheet.id with hdel
        have hperm : List.Perm M (inv.filter (matchesOnHand mt len)) :=
          sortByCreatedAt_perm _
        have hMnodup : (M.map Sheet.id).Nodup := by
          refine ((hperm.map Sheet.id).nodup_iff).mpr ?_
          rw [hinv]
          exact nodup_ids_filter _ hnodup
        have hdisj : ∀ a ∈ delIds, a ∉ (M.drop k).map Sheet.id := by
          have hsplit : M.map Sheet.id =
              (M.take k).map Sheet.id ++ (M.drop k).map Sheet.id := by
            rw [← List.map_append, List.take_append_drop]
          rw [hsplit] at hMnodup
          intro a ha hb
          rcases List.nodup_append.mp hMnodup with ⟨-, -, hdisj2⟩
          exact hdisj2 ha hb
        have hfilterM :
            (st.inventory.filter fun s => !(delIds.contains s.id)).filter
                (matchesOnHand mt len) =
              (st.inventory.filter (matchesOnHand mt len)).filter
                fun s => !(delIds.contains s.id) :=
          filter_comm_bool _ _ st.inventory
        have hpermF :
            List.Perm ((st.inventory.filter (matchesOnHand mt len)).filter
                fun s => !(delIds.contains s.id))
              (M.filter fun s => !(delIds.contains s.id)) := by
          refine List.Perm.filter _ ?_
          rw [hinv] at hperm
          exact hperm.symm
        have htake : (M.take k).filter (fun s => !(delIds.contains s.id)) = [] := by
          apply List.filter_eq_nil_iff.mpr
          intro s hs
          rw [contains_eq_true_of_mem (List.mem_map_of_mem Sheet.id hs)]
          simp
        have hdrop : (M.drop k).filter (fun s => !(delIds.contains s.id)) =
            M.drop k := by
          apply List.filter_eq_self.mpr
          intro s hs
          rw [contains_eq_false_of_not_mem ?haux]
          · rfl
          case haux =>
            intro hmem
            exact hdisj s.id hmem (List.mem_map_of_mem Sheet.id hs)
        have hMsplit : M.filter (fun s => !(delIds.contains s.id)) =
            M.drop k := by
          conv_lhs => rw [← List.take_append_drop k M]
          rw [List.filter_append, htake, hdrop, List.nil_append]
        rw [onHandCount, hfilterM, hpermF.length_eq, hMsplit,
          List.length_drop, hMlen]
        omega

/-- C7 witness: the theorem applied at a concrete adjustment. -/
theorem claim_c7_manual_adjust_witness :
    ((3 < 1 ∧ onHandCount [baseSheet] "A16GA" 96 < 1 - 3) →
      handleStockEdit [] 1 "A16GA" 96 3 77 [baseSheet]
          { inventory := [baseSheet], logs := [], nextId := 1 } =
        .error (.cannotRemove (1 - 3) (onHandCount [baseSheet] "A16GA" 96))) ∧
    (1 = inventorySummaryCount [baseSheet] "A16GA" 96 →
     [baseSheet] = ({ inventory := [baseSheet], logs := [], nextId := 1 } :
        EngineState).inventory →
     (({ inventory := [baseSheet], logs := [], nextId := 1 } :
        EngineState).inventory.map Sheet.id).Nodup →
      (3 = 1 →
        handleStockEdit [] 1 "A16GA" 96 3 77 [baseSheet]
            { inventory := [baseSheet], logs := [], nextId := 1 } =
          .ok { inventory := [baseSheet], logs := [], nextId := 1 }) ∧
      (1 < 3 →
        ∃ news,
          handleStockEdit [] 1 "A16GA" 96 3 77 [baseSheet]
              { inventory := [baseSheet], logs := [], nextId := 1 } =
            .ok { inventory := [baseSheet] ++ news, logs := [],
                  nextId := 1 + (3 - 1) } ∧
          news.length = 3 - 1 ∧
          (∀ s ∈ news, s.status = "On Hand" ∧ s.supplier = "Manual Edit" ∧
            s.job = "MODIFICATION: ADD" ∧ s.costPerPound = 0 ∧
            s.materialType = "A16GA" ∧ s.length = 96) ∧
          onHandCount ([baseSheet] ++ news) "A16GA" 96 = 3) ∧
      (3 < 1 →
        ∃ st',
          handleStockEdit [] 1 "A16GA" 96 3 77 [baseSheet]
              { inventory := [baseSheet], logs := [], nextId := 1 } =
            .ok st' ∧
          (∀ s ∈ st'.inventory,
            s ∈ ({ inventory := [baseSheet], logs := [], nextId := 1 } :
              EngineState).inventory) ∧
          (∀ s ∈ ({ inventory := [baseSheet], logs := [], nextId := 1 } :
              EngineState).inventory, (s ∉ st'.inventory ↔
            s.id ∈ (selectSheets [baseSheet] "A16GA" 96 (1 - 3)).map Sheet.id)) ∧
          onHandCount st'.inventory "A16GA" 96 = 3)) :=
  claim_c7_manual_adjust [] 1 "A16GA" 96 3 77 [baseSheet]
    { inventory := [baseSheet], logs := [], nextId := 1 }

/-! ## C3 — immediate batch aborts atomically on any shortfall -/

theorem allocate_error_shape {inv : List Sheet} {reqs : List (String × Nat × Nat)}
    {e : EngineError} (h : allocate inv reqs = .error e) :
    ∃ mt len q, (mt, len, q) ∈ reqs ∧ (matchingOnHand inv mt len).length < q ∧
      e = .insufficientStock q ((matchingOnHand inv mt len).length) mt len := by
  induction reqs with
  | nil => simp [allocate] at h
  | cons r rest ih =>
      rcases r with ⟨mt, len, q⟩
      simp only [allocate] at h
      split at h
      · rename_i hshort
        rcases Except.error.inj h with rfl
        exact ⟨mt, len, q, List.mem_cons_self _ _, hshort, rfl⟩
      · cases halloc : allocate inv rest with
        | ok tail => rw [halloc] at h; simp [Except.map] at h
        | error e' =>
            rw [halloc] at h
            simp only [Except.map] at h
            rcases Except.error.inj h with rfl
            rcases ih halloc with ⟨mt', len', q', hmem, hshort', rfl⟩
            exact ⟨mt', len', q', List.mem_cons_of_mem _ hmem, hshort', rfl⟩

theorem allocate_ok_no_short {inv : List Sheet} {reqs : List (String × Nat × Nat)}
    {chosen : List Sheet} (h : allocate inv reqs = .ok chosen) :
    ∀ r ∈ reqs, ¬ ((matchingOnHand inv r.1 r.2.1).length < r.2.2) := by
  induction reqs generalizing chosen with
  | nil => intro r hr; cases hr
  | cons hd rest ih =>
      rcases hd with ⟨mt, len, q⟩
      simp only [allocate] at h
      split at h
      · cases h
      · rename_i hok
        intro r hr
        rcases List.mem_cons.mp hr with rfl | hr'
        · exact hok
        · cases halloc : allocate inv rest with
          | error e' => rw [halloc] at h; simp [Except.map] at h
          | ok tail => exact ih halloc r hr'

theorem allocate_short_error {inv : List Sheet} {reqs : List (String × Nat × Nat)}
    (r : String × Nat × Nat) (hr : r ∈ reqs)
    (hshort : (matchingOnHand inv r.1 r.2.1).length < r.2.2) :
    ∃ e, allocate inv reqs = .error e := by
  induction reqs with
  | nil => cases hr
  | cons hd rest ih =>
      rcases hd with ⟨mt, len, q⟩
      by_cases hs : (matchingOnHand inv mt len).length < q
      · exact ⟨_, by simp only [allocate]; rw [if_pos hs]⟩
      · rcases List.mem_cons.mp hr with rfl | hr'
        · exact absurd hshort hs
        · rcases ih hr' with ⟨e, he⟩
          refine ⟨e, ?_⟩
          simp only [allocate]
          rw [if_neg hs, he]
          rfl

/-- C3 (confirmed): if any requirement of any job of an immediate batch has
fewer matching On Hand units than requested, the whole transaction throws an
insufficient-stock error carrying the requested quantity, the available
count and the (materialType, length) key, and returns no success state — in
the transactional model nothing is committed, so no unit changes and no
record is created, and no job of the batch partially succeeds. -/
theorem claim_c3_useStock_all_or_nothing (materials : Materials)
    (jobs : List Job) (d now : Nat) (inv : List Sheet) (st : EngineState)
    (h : ∃ j ∈ jobs, ∃ r ∈ allocReqs j.items,
      (matchingOnHand inv r.1 r.2.1).length < r.2.2) :
    ∃ mt len q, (matchingOnHand inv mt len).length < q ∧
      handleUseStock materials jobs false d now inv st =
        .error (.insufficientStock q ((matchingOnHand inv mt len).length) mt len) ∧
      ∀ st', handleUseStock materials jobs false d now inv st ≠ .ok st' := by
  have main : ∀ (jobs : List Job) (st : EngineState),
      (∃ j ∈ jobs, ∃ r ∈ allocReqs j.items,
        (matchingOnHand inv r.1 r.2.1).length < r.2.2) →
      ∃ mt len q, (matchingOnHand inv mt len).length < q ∧
        (jobs.foldlM (fun s job => processImmediateJob inv now s job) st :
            Except EngineError EngineState) =
          .error (.insufficientStock q ((matchingOnHand inv mt len).length) mt len) := by
    intro jobs
    induction jobs with
    | nil =>
        intro st hex
        rcases hex with ⟨j, hj, -⟩
        cases hj
    | cons j rest ih =>
        intro st hex
        cases halloc : allocate inv (allocReqs j.items) with
        | error e =>
            rcases allocate_error_shape halloc with ⟨mt, len, q, -, hshort, rfl⟩
            refine ⟨mt, len, q, hshort, ?_⟩
            simp only [List.foldlM_cons, processImmediateJob, halloc]
            rfl
        | ok chosen =>
            have hnoshort := allocate_ok_no_short halloc
            have hex' : ∃ j' ∈ rest, ∃ r ∈ allocReqs j'.items,
                (matchingOnHand inv r.1 r.2.1).length < r.2.2 := by
              rcases hex with ⟨j', hj', r, hr, hshort⟩
              rcases List.mem_cons.mp hj' with rfl | hmem
              · exact absurd hshort (hnoshort r hr)
              · exact ⟨j', hmem, r, hr, hshort⟩
            have hstep : ∃ st1, processImmediateJob inv now st j = .ok st1 := by
              simp only [processImmediateJob, halloc]
              by_cases hemp : chosen.isEmpty = true
              · rw [if_pos hemp]
                exact ⟨_, rfl⟩
              · rw [if_neg hemp]
                exact ⟨_, rfl⟩
            rcases hstep with ⟨st1, hstep⟩
            rcases ih st1 hex' with ⟨mt, len, q, hshort, hfold⟩
            refine ⟨mt, len, q, hshort, ?_⟩
            rw [List.foldlM_cons, hstep]
            exact hfold
  rcases main jobs st h with ⟨mt, len, q, hshort, hfold⟩
  refine ⟨mt, len, q, hshort, hfold, ?_⟩
  intro st' hok
  rw [show handleUseStock materials jobs false d now inv st =
      jobs.foldlM (fun s job => processImmediateJob inv now s job) st from rfl]
    at hok
  rw [hfold] at hok
  cases hok

/-- Three On Hand units of the key. -/
def c3_pool : List Sheet :=
  [{ baseSheet with id := 1 }, { baseSheet with id := 2 },
   { baseSheet with id := 3 }]

/-- C3 witness: the spec's own example — 3 units On Hand, a request for 4 —
applied to the theorem. -/
theorem claim_c3_useStock_all_or_nothing_witness :
    ∃ mt len q, (matchingOnHand c3_pool mt len).length < q ∧
      handleUseStock [] [reqJob 4] false 0 9 c3_pool
          { inventory := c3_pool, logs := [], nextId := 5 } =
        .error (.insufficientStock q ((matchingOnHand c3_pool mt len).length) mt len) ∧
      ∀ st', handleUseStock [] [reqJob 4] false 0 9 c3_pool
          { inventory := c3_pool, logs := [], nextId := 5 } ≠ .ok st' :=
  claim_c3_useStock_all_or_nothing [] [reqJob 4] 0 9 c3_pool
    { inventory := c3_pool, logs := [], nextId := 5 }
    ⟨reqJob 4, by simp, ("A16GA", 96, 4), by decide, by decide⟩

/-! ## C1 — editing a Completed record down cannot succeed without spare
stock -/

/-- C1 (corrected): for a Completed record that consumed two units of a key,
a revised request of one unit of that key passes the pre-check (net change is
positive), but the re-allocation phase filters the snapshot's On Hand units
**excluding the original unit ids** — and the snapshot still shows the two
original units as Used — so with no other On Hand unit of the key it finds
nothing and the whole edit aborts with the edit-time concurrency error,
committing no change at all: the edit fails instead of ending with one unit
Used and one On Hand. -/
theorem claim_c1_edit_decrease_aborts (materials : Materials)
    (originalLog : UsageLog) (newData : NewLogData) (now : Nat)
    (inv : List Sheet) (st : EngineState) (a b : Sheet) (mt : String) (cp : Nat)
    (hstatus : originalLog.status = some "Completed")
    (hdetails : originalLog.details = [.snap a, .snap b])
    (hamt : a.materialType = mt) (halen : a.length = 96)
    (hbmt : b.materialType = mt) (hblen : b.length = 96)
    (hitems : newData.items =
      [{ materialType := mt, qty96 := 1, qty120 := 0, qty144 := 0,
         costPerPound := cp }])
    (hnone : inv.filter (fun i =>
        i.materialType == mt && i.length == 96 && i.status == "On Hand" &&
          !((originalLog.details.filterMap LogDetail.detailId).contains i.id)) =
      []) :
    handleEditOutgoingLog materials originalLog newData now inv st =
      .error (.editConcurrency mt 96) := by
  have hsched : (originalLog.status == some "Scheduled") = false := by
    rw [hstatus]
    rfl
  have hnet : netChangeOf originalLog.details newData.items = [((mt, 96), 1)] := by
    rw [hdetails, hitems]
    simp [netChangeOf, bumpKey, LogDetail.detailMaterialType,
      LogDetail.detailLength, hamt, halen, hbmt, hblen, STANDARD_LENGTHS, qtyFor]
  have hreq : allocReqs newData.items = [(mt, 96, 1)] := by
    rw [hitems]
    rfl
  simp only [handleEditOutgoingLog, hsched, Bool.false_eq_true, if_false, hnet]
  have hpre : firstShortKey inv [((mt, 96), 1)] = none := by
    simp [firstShortKey]
  rw [hpre, hreq]
  have hrealloc :
      reallocate inv (originalLog.details.filterMap LogDetail.detailId)
        [(mt, 96, 1)] = .error (.editConcurrency mt 96) := by
    simp only [reallocate, hnone]
    rfl
  rw [hrealloc]

/-- The first consumed unit of the C1 scenario. -/
def c1_sheet1 : Sheet :=
  { baseSheet with
    id := 1
    status := "Used"
    usageLogId := some 1
    jobNameUsed := some "J"
    customerUsed := some "C"
    usedAt := some 20 }

/-- The second consumed unit of the C1 scenario. -/
def c1_sheet2 : Sheet := { c1_sheet1 with id := 2 }

/-- The Completed record consuming both units. -/
def c1_log : UsageLog :=
  { id := 1, job := "J", customer := "C", status := some "Completed",
    createdAt := 20, usedAt := 20, fulfilledAt := none,
    details := [.snap c1_sheet1, .snap c1_sheet2], qty := -2 }

/-- The revised request: one unit of the same key. -/
def c1_newData : NewLogData :=
  { jobName := "J", customer := "C", date := 21, items := [reqItem 1] }

/-- The store: only the two consumed units exist for the key. -/
def c1_state : EngineState :=
  { inventory := [c1_sheet1, c1_sheet2], logs := [c1_log], nextId := 3 }

/-- C1 counterexample: at the spec's own scenario (a Completed record of two
A16GA at 96 units edited down to one, with zero other On Hand units of the
key) the code throws the edit-time concurrency error — it does not succeed
with one unit Used and one returned. -/
theorem claim_c1_counterexample :
    handleEditOutgoingLog [] c1_log c1_newData 22 c1_state.inventory c1_state =
      .error (.editConcurrency "A16GA" 96) := by
  rfl

/-- C1 witness: the amended theorem applied at the concrete scenario. -/
theorem claim_c1_edit_decrease_aborts_witness :
    handleEditOutgoingLog [] c1_log c1_newData 23
        c1_state.inventory c1_state = .error (.editConcurrency "A16GA" 96) :=
  claim_c1_edit_decrease_aborts [] c1_log c1_newData 23 c1_state.inventory
    c1_state c1_sheet1 c1_sheet2 "A16GA" 0 rfl rfl rfl rfl rfl rfl rfl
    (by decide)

/-! ## C2 — immediate use marks units Used with back-references -/

/-- The (materialType, length) keys requested anywhere in a batch. -/
def batchReqKeys (jobs : List Job) : List (String × Nat) :=
  (jobs.flatMap fun j => allocReqs j.items).map fun r => (r.1, r.2.1)

/-- Identity-and-key agreement between a snapshot sheet and a store sheet. -/
def CoreEq (a b : Sheet) : Prop :=
  a.id = b.id ∧ a.materialType = b.materialType ∧ a.length = b.length

/-- The per-record goal of C2, tracking that the record's units carry keys
outside the still-unprocessed requirements. -/
def DoneLog (now : Nat) (inv : List Sheet) (remKeys : List (String × Nat))
    (stk : EngineState) (l : UsageLog) : Prop :=
  l.status = some "Completed" ∧
  ∀ dt ∈ l.details, ∃ s : Sheet, dt = .snap s ∧ s ∈ inv ∧ s.status = "On Hand" ∧
    (s.materialType, s.length) ∉ remKeys ∧
    ∃ s' ∈ stk.inventory, s'.id = s.id ∧ s'.status = "Used" ∧
      s'.usageLogId = some l.id ∧ s'.jobNameUsed = some l.job ∧
      s'.customerUsed = some l.customer ∧ s'.usedAt = some now

theorem doneLog_mono {now : Nat} {inv : List Sheet}
    {remKeys remKeys' : List (String × Nat)} {stk : EngineState} {l : UsageLog}
    (hsub : ∀ k, k ∈ remKeys' → k ∈ remKeys)
    (h : DoneLog now inv remKeys stk l) : DoneLog now inv remKeys' stk l := by
  rcases h with ⟨h1, h2⟩
  refine ⟨h1, ?_⟩
  intro dt hdt
  rcases h2 dt hdt with ⟨s, e1, e2, e3, e4, e5⟩
  exact ⟨s, e1, e2, e3, fun hk => e4 (hsub _ hk), e5⟩

theorem forall₂_coreEq_refl (l : List Sheet) : List.Forall₂ CoreEq l l := by
  induction l with
  | nil => exact List.Forall₂.nil
  | cons x xs ih => exact List.Forall₂.cons ⟨rfl, rfl, rfl⟩ ih

theorem forall₂_exists_mem {l₁ l₂ : List Sheet} (h : List.Forall₂ CoreEq l₁ l₂)
    {a : Sheet} (ha : a ∈ l₁) : ∃ b ∈ l₂, CoreEq a b := by
  induction h with
  | nil => cases ha
  | cons hab htail ih =>
      rcases List.mem_cons.mp ha with rfl | ha2
      · exact ⟨_, List.mem_cons_self _ _, hab⟩
      · rcases ih ha2 with ⟨b, hb, hcb⟩
        exact ⟨b, List.mem_cons_of_mem _ hb, hcb⟩

theorem forall₂_coreEq_map {l₁ l₂ : List Sheet} (h : List.Forall₂ CoreEq l₁ l₂)
    (f : Sheet → Sheet) (hf : ∀ b, CoreEq b (f b)) :
    List.Forall₂ CoreEq l₁ (l₂.map f) := by
  induction h with
  | nil => exact List.Forall₂.nil
  | cons hab htail ih =>
      refine List.Forall₂.cons ?_ ih
      rcases hab with ⟨h1, h2, h3⟩
      rcases hf _ with ⟨g1, g2, g3⟩
      exact ⟨h1.trans g1, h2.trans g2, h3.trans g3⟩

theorem forall₂_coreEq_markUsed {inv l2 : List Sheet}
    (h : List.Forall₂ CoreEq inv l2) (logId : Nat) (jn cu : String) (now : Nat)
    (ids : List Nat) :
    List.Forall₂ CoreEq inv (markUsed logId jn cu now ids l2) := by
  refine forall₂_coreEq_map h _ ?_
  intro b
  by_cases hb : ids.contains b.id = true
  · rw [if_pos hb]
    exact ⟨rfl, rfl, rfl⟩
  · rw [if_neg hb]
    exact ⟨rfl, rfl, rfl⟩

theorem markUsed_mem_marked {l : List Sheet} {t : Sheet} (ht : t ∈ l)
    (logId : Nat) (jn cu : String) (now : Nat) {ids : List Nat}
    (hid : t.id ∈ ids) :
    ∃ s' ∈ markUsed logId jn cu now ids l, s'.id = t.id ∧ s'.status = "Used" ∧
      s'.usageLogId = some logId ∧ s'.jobNameUsed = some jn ∧
      s'.customerUsed = some cu ∧ s'.usedAt = some now := by
  have hc : ids.contains t.id = true := contains_eq_true_of_mem hid
  refine ⟨_, List.mem_map_of_mem _ ht, ?_⟩
  rw [if_pos hc]
  exact ⟨rfl, rfl, rfl, rfl, rfl, rfl⟩

theorem markUsed_mem_unmarked {l : List Sheet} {s' : Sheet} (h : s' ∈ l)
    (logId : Nat) (jn cu : String) (now : Nat) {ids : List Nat}
    (hid : s'.id ∉ ids) :
    s' ∈ markUsed logId jn cu now ids l := by
  have hc : ¬ (ids.contains s'.id = true) := by
    rw [contains_eq_false_of_not_mem hid]
    intro hx
    cases hx
  have heq : (fun s : Sheet => if ids.contains s.id then
      { s with
        status := "Used"
        usageLogId := some logId
        jobNameUsed := some jn
        customerUsed := some cu
        usedAt := some now }
    else s) s' = s' := by
    dsimp only
    rw [if_neg hc]
  exact heq ▸ List.mem_map_of_mem _ h

theorem allocate_sound {inv : List Sheet} {reqs : List (String × Nat × Nat)}
    {chosen : List Sheet} (h : allocate inv reqs = .ok chosen) :
    ∀ c ∈ chosen, c ∈ inv ∧ c.status = "On Hand" ∧
      (c.materialType, c.length) ∈ reqs.map (fun r => (r.1, r.2.1)) := by
  induction reqs generalizing chosen with
  | nil =>
      rcases Except.ok.inj h with rfl
      intro c hc
      cases hc
  | cons hd rest ih =>
      rcases hd with ⟨mt, len, q⟩
      simp only [allocate] at h
      split at h
      · cases h
      · cases halloc : allocate inv rest with
        | error e => rw [halloc] at h; simp [Except.map] at h
        | ok tail =>
            rw [halloc] at h
            simp only [Except.map] at h
            rcases Except.ok.inj h with rfl
            intro c hc
            rcases List.mem_append.mp hc with hc | hc
            · have hcm : c ∈ matchingOnHand inv mt len :=
                List.take_subset q _ hc
              have hcf : c ∈ inv.filter (matchesOnHand mt len) :=
                mem_sortByCreatedAt.mp hcm
              rcases List.mem_filter.mp hcf with ⟨hcinv, hmatch⟩
              simp only [matchesOnHand, Bool.and_eq_true, beq_iff_eq] at hmatch
              rcases hmatch with ⟨⟨hmt, hlen⟩, hoh⟩
              refine ⟨hcinv, hoh, ?_⟩
              rw [List.map_cons, hmt, hlen]
              exact List.mem_cons_self _ _
            · rcases ih halloc c hc with ⟨h1, h2, h3⟩
              exact ⟨h1, h2, List.mem_cons_of_mem _ h3⟩

theorem eq_of_mem_of_id_eq {l : List Sheet} (hids : (l.map Sheet.id).Nodup)
    {a b : Sheet} (ha : a ∈ l) (hb : b ∈ l) (hid : a.id = b.id) : a = b :=
  List.inj_on_of_nodup_map hids ha hb hid

/-- The main induction of C2 over the batch's jobs. -/
theorem useStock_fold_done (now : Nat) (inv : List Sheet) (st0 : EngineState)
    (hids : (inv.map Sheet.id).Nodup) :
    ∀ (jobs : List Job) (stk st' : EngineState),
      List.Forall₂ CoreEq inv stk.inventory →
      (batchReqKeys jobs).Nodup →
      (∀ l ∈ stk.logs, l ∉ st0.logs →
        DoneLog now inv (batchReqKeys jobs) stk l) →
      jobs.foldlM (fun s job => processImmediateJob inv now s job) stk =
        .ok st' →
      ∀ l ∈ st'.logs, l ∉ st0.logs → DoneLog now inv [] st' l := by
  intro jobs
  induction jobs with
  | nil =>
      intro stk st' hcore hkeys hdone hfold
      rw [List.foldlM_nil] at hfold
      rcases Except.ok.inj hfold with rfl
      intro l hl hnot
      exact doneLog_mono (fun k hk => by cases hk) (hdone l hl hnot)
  | cons j rest ih =>
      intro stk st' hcore hkeys hdone hfold
      rw [List.foldlM_cons] at hfold
      have hkeys_cons : batchReqKeys (j :: rest) =
          (allocReqs j.items).map (fun r => (r.1, r.2.1)) ++ batchReqKeys rest := by
        simp [batchReqKeys]
      have hkdisj : ∀ k ∈ (allocReqs j.items).map (fun r => (r.1, r.2.1)),
          k ∉ batchReqKeys rest := by
        rw [hkeys_cons] at hkeys
        rcases List.nodup_append.mp hkeys with ⟨-, -, hd⟩
        intro k hk1 hk2
        exact hd hk1 hk2
      have hkeys_rest : (batchReqKeys rest).Nodup := by
        rw [hkeys_cons] at hkeys
        exact (List.nodup_append.mp hkeys).2.1
      have hsub_rest : ∀ k, k ∈ batchReqKeys rest → k ∈ batchReqKeys (j :: rest) := by
        intro k hk
        rw [hkeys_cons]
        exact List.mem_append_right _ hk
      cases halloc : allocate inv (allocReqs j.items) with
      | error e =>
          rw [show processImmediateJob inv now stk j = .error e from by
            simp only [processImmediateJob, halloc]] at hfold
          cases hfold
      | ok chosen =>
          have hsound := allocate_sound halloc
          by_cases hemp : chosen.isEmpty = true
          · rw [show processImmediateJob inv now stk j =
                .ok { stk with nextId := stk.nextId + 1 } from by
              simp only [processImmediateJob, halloc]
              rw [if_pos hemp]] at hfold
            refine ih { stk with nextId := stk.nextId + 1 } st' hcore hkeys_rest
              ?_ hfold
            intro l hl hnot
            exact doneLog_mono hsub_rest (hdone l hl hnot)
          · rw [show processImmediateJob inv now stk j =
                .ok { inventory :=
                        markUsed stk.nextId (jobNameOrNA j.jobName) j.customer
                          now (chosen.map Sheet.id) stk.inventory
                      logs := stk.logs ++
                        [{ id := stk.nextId, job := jobNameOrNA j.jobName,
                           customer := j.customer, status := some "Completed",
                           createdAt := now, usedAt := now, fulfilledAt := none,
                           details := chosen.map LogDetail.snap,
                           qty := -(chosen.length : Int) }]
                      nextId := stk.nextId + 1 } from by
              simp only [processImmediateJob, halloc]
              rw [if_neg hemp]] at hfold
            refine ih _ st' ?_ hkeys_rest ?_ hfold
            · exact forall₂_coreEq_markUsed hcore stk.nextId
                (jobNameOrNA j.jobName) j.customer now (chosen.map Sheet.id)
            · intro l hl hnot
              rcases List.mem_append.mp hl with hl | hl
              · -- a record written by an earlier job: untouched by this job
                rcases hdone l hl hnot with ⟨h1, h2⟩
                refine ⟨h1, ?_⟩
                intro dt hdt
                rcases h2 dt hdt with ⟨s, e1, e2, e3, e4,
                  s', hs'mem, hs'id, hs'st, hs'ulid, hs'jn, hs'cu, hs'ua⟩
                refine ⟨s, e1, e2, e3, fun hk => e4 (hsub_rest _ hk), s', ?_,
                  hs'id, hs'st, hs'ulid, hs'jn, hs'cu, hs'ua⟩
                have hs'not : s'.id ∉ chosen.map Sheet.id := by
                  intro hin
                  rcases List.mem_map.mp hin with ⟨c, hc_mem, hc_id⟩
                  rcases hsound c hc_mem with ⟨hc_inv, -, hc_key⟩
                  have hcs : c = s := by
                    refine eq_of_mem_of_id_eq hids hc_inv e2 ?_
                    rw [hc_id, hs'id]
                  refine e4 ?_
                  rw [hkeys_cons]
                  apply List.mem_append_left
                  rw [← hcs]
                  exact hc_key
                exact markUsed_mem_unmarked hs'mem stk.nextId
                  (jobNameOrNA j.jobName) j.customer now hs'not
              · -- the record written by this job
                rcases List.mem_singleton.mp hl with rfl
                refine ⟨rfl, ?_⟩
                intro dt hdt
                rcases List.mem_map.mp hdt with ⟨c, hc_mem, rfl⟩
                rcases hsound c hc_mem with ⟨hc_inv, hc_oh, hc_key⟩
                refine ⟨c, rfl, hc_inv, hc_oh, hkdisj _ hc_key, ?_⟩
                rcases forall₂_exists_mem hcore hc_inv with ⟨t, ht_mem, ht_core⟩
                rcases ht_core with ⟨htid, -, -⟩
                have htin : t.id ∈ chosen.map Sheet.id := by
                  rw [← htid]
                  exact List.mem_map_of_mem _ hc_mem
                rcases markUsed_mem_marked ht_mem stk.nextId
                    (jobNameOrNA j.jobName) j.customer now htin with
                  ⟨s', hs'mem, hs'id, hs'st, hs'ulid, hs'jn, hs'cu, hs'ua⟩
                exact ⟨s', hs'mem, by rw [hs'id, ← htid], hs'st, hs'ulid,
                  hs'jn, hs'cu, hs'ua⟩

/-- C2 (corrected): for the engine hook's immediate path, when the call
succeeds, the client snapshot matches the store, unit ids are unique and the
batch requests pairwise-distinct (materialType, length) keys, every freshly
created record has status Completed and each of its detail rows is the
snapshot of a consumed unit that was On Hand and is afterwards present (not
deleted) in the store marked Used with back-references (usageLogId,
jobNameUsed, customerUsed, usedAt) to that record.  (As stated the claim is
false: the UseStockModal submit path deletes the chosen units and writes a
record with no status field; and a batch requesting the same key twice
double-allocates, leaving the unit's back-reference pointing at only the
later record.) -/
theorem claim_c2_immediate_use_marks (materials : Materials) (jobs : List Job)
    (d now : Nat) (st st' : EngineState)
    (hids : (st.inventory.map Sheet.id).Nodup)
    (hkeys : (batchReqKeys jobs).Nodup)
    (hok : handleUseStock materials jobs false d now st.inventory st = .ok st') :
    ∀ l ∈ st'.logs, l ∉ st.logs →
      l.status = some "Completed" ∧
      ∀ dt ∈ l.details, ∃ s : Sheet, dt = .snap s ∧ s ∈ st.inventory ∧
        s.status = "On Hand" ∧
        ∃ s' ∈ st'.inventory, s'.id = s.id ∧ s'.status = "Used" ∧
          s'.usageLogId = some l.id ∧ s'.jobNameUsed = some l.job ∧
          s'.customerUsed = some l.customer ∧ s'.usedAt = some now := by
  have hfold : jobs.foldlM
      (fun s job => processImmediateJob st.inventory now s job) st = .ok st' :=
    hok
  have hmain := useStock_fold_done now st.inventory st hids jobs st st'
    (forall₂_coreEq_refl _) hkeys (fun l hl hnot => absurd hl hnot) hfold
  intro l hl hnot
  rcases hmain l hl hnot with ⟨h1, h2⟩
  refine ⟨h1, ?_⟩
  intro dt hdt
  rcases h2 dt hdt with ⟨s, e1, e2, e3, -, e5⟩
  exact ⟨s, e1, e2, e3, e5⟩

/-- The single On Hand unit of the modal scenario. -/
def c2_sheet : Sheet := { baseSheet with id := 11 }

/-- The store of the modal scenario. -/
def c2_state : EngineState := { inventory := [c2_sheet], logs := [], nextId := 20 }

/-- C2 counterexample: a successful immediate use through the
UseStockModal submit path **deletes** the chosen unit (the inventory ends
empty instead of holding a Used unit) and writes a record with no status
field — not a Completed record referencing surviving units. -/
theorem claim_c2_counterexample :
    useStockModalSubmit [reqJob 1] 30 [c2_sheet] c2_state =
      .ok { inventory := []
            logs := [{ id := 20, job := "steelJob", customer := "C",
                       status := none, createdAt := 30, usedAt := 30,
                       fulfilledAt := none,
                       details := [.consumed c2_sheet], qty := -1 }]
            nextId := 21 } := by
  rfl

/-- The store of the C2 witness scenario. -/
def c2w_state : EngineState :=
  { inventory := [{ baseSheet with id := 40 }], logs := [], nextId := 50 }

/-- The store after the witness call. -/
def c2w_after : EngineState :=
  { inventory :=
      [{ baseSheet with
          id := 40
          status := "Used"
          usageLogId := some 50
          jobNameUsed := some "steelJob"
          customerUsed := some "C"
          usedAt := some 33 }]
    logs :=
      [{ id := 50, job := "steelJob", customer := "C",
         status := some "Completed", createdAt := 33, usedAt := 33,
         fulfilledAt := none, details := [.snap { baseSheet with id := 40 }],
         qty := -1 }]
    nextId := 51 }

/-- C2 witness: the amended theorem applied at a concrete one-job batch. -/
theorem claim_c2_immediate_use_marks_witness :
    ((c2w_state.inventory.map Sheet.id).Nodup ∧
      (batchReqKeys [reqJob 1]).Nodup ∧
      handleUseStock [] [reqJob 1] false 0 33 c2w_state.inventory c2w_state =
        .ok c2w_after) ∧
    (∀ l ∈ c2w_after.logs, l ∉ c2w_state.logs →
      l.status = some "Completed" ∧
      ∀ dt ∈ l.details, ∃ s : Sheet, dt = .snap s ∧ s ∈ c2w_state.inventory ∧
        s.status = "On Hand" ∧
        ∃ s' ∈ c2w_after.inventory, s'.id = s.id ∧ s'.status = "Used" ∧
          s'.usageLogId = some l.id ∧ s'.jobNameUsed = some l.job ∧
          s'.customerUsed = some l.customer ∧ s'.usedAt = some 33) :=
  ⟨⟨by decide, by decide, rfl⟩,
    claim_c2_immediate_use_marks [] [reqJob 1] 0 33 c2w_state c2w_after
      (by decide) (by decide) rfl⟩

/-- A one-unit original group dated 4, ordered at 3. -/
def c10_group : OrderGroup := { date := some 4, dateOrdered := 3, detailIds := [0] }

/-- The unit created by the C10 witness call. -/
def c10_new_sheet : Sheet :=
  mkOrderSheet c10_group.lotDate (reqJob 1, reqItem 1, 96) 1

/-- C10 witness: the theorem applied at a concrete edit call and the concrete
unit it creates, whose lot timestamp is the original group's date (4), not
the call time (99). -/
theorem claim_c10_order_edit_lot_date_witness :
    c10_new_sheet ∈ (handleAddOrEditOrder [reqJob 1] (some c10_group) 99
        { inventory := [baseSheet], logs := [], nextId := 1 }).inventory ∧
    c10_new_sheet ∉ ({ inventory := [baseSheet], logs := [], nextId := 1 } :
        EngineState).inventory ∧
    c10_new_sheet.createdAt = c10_group.lotDate :=
  ⟨by decide, by decide,
    claim_c10_order_edit_lot_date [reqJob 1] (some c10_group) 99
      { inventory := [baseSheet], logs := [], nextId := 1 } c10_new_sheet
      (by decide) (by decide)⟩

end TPI
